import Mathlib

/-!
Verification development for the `learn-cfop` move engine and playback
controller.  The definitions below are a shallow embedding of the
JavaScript sources:

* `js/cube/MoveParser.js` — `Move`, `MoveParser.parse`, `MoveParser.toString`,
  `Move.inverse`;
* `js/cube/CubeModel.js` — the 6×9 facelet grid, the face rotations, the
  `EDGE_CYCLES` / `MIDDLE_CYCLES` tables and `CubeModel.applyMove`;
* `js/cube/CubeController.js` — the playback controller, modelled as a step
  function over an explicit state that also records the suspension points of
  the `async` methods (each `await animator.animateMove(..)` becomes a pending
  continuation; an animation completing is a `drain` event);
* `js/cube/CubeAnimator.js` — the timing of one animation frame, with
  rational time stamps;
* `js/ui/ProgressTracker.js` — progress persistence over an abstracted
  storage blob.
-/

/-- The six cube faces.  `CubeModel.js` keys its `faces` object by the face
letters `['U', 'D', 'F', 'B', 'R', 'L']`; the tables and the parser only ever
produce these six symbols, so they form an inductive type here. -/
inductive Face
  | U | D | F | B | R | L
deriving DecidableEq, Repr, Fintype

/-- The fixed six-color palette from `COLORS` in `CubeModel.js`. -/
inductive Color
  | white | yellow | green | blue | red | orange
deriving DecidableEq, Repr, Fintype

/-- `COLORS` in `CubeModel.js`: the color owned by each face when solved. -/
def COLORS : Face → Color
  | .U => .white
  | .D => .yellow
  | .F => .green
  | .B => .blue
  | .R => .red
  | .L => .orange

/-- A facelet grid: 6 faces × 9 stickers.  `CubeModel.js` stores
`this.faces[name]` as an array of 9 values; here a grid is a function from a
face and a sticker index to a stored value.  The value type is a parameter so
that the permutation lemmas can be proved once over the grid of positions. -/
def Grid (α : Type) : Type := Face → Fin 9 → α

instance (α : Type) [DecidableEq α] : DecidableEq (Grid α) :=
  inferInstanceAs (DecidableEq (Face → Fin 9 → α))

/-- One sticker assignment `this.faces[f][i] = c`. -/
def setCell {α : Type} (g : Grid α) (f : Face) (i : Fin 9) (c : α) : Grid α :=
  fun f' i' => if f' = f ∧ i' = i then c else g f' i'

/-- The grid of the solved cube: each face filled with its own color
(`CubeModel.reset`). -/
def solvedGrid : Grid Color := fun f _ => COLORS f

namespace CubeModel

/-- `CubeModel._rotateFaceCW`: rotate one face's 9 stickers 90° clockwise.
The source writes `f[0] = temp[6]; f[1] = temp[3]; ...` from a snapshot
`temp`, i.e. destination index `d` reads snapshot index `cwSrc d`. -/
def cwSrc : Fin 9 → Fin 9
  | 0 => 6 | 1 => 3 | 2 => 0
  | 3 => 7 | 4 => 4 | 5 => 1
  | 6 => 8 | 7 => 5 | 8 => 2

/-- `CubeModel._rotateFaceCCW` source indices. -/
def ccwSrc : Fin 9 → Fin 9
  | 0 => 2 | 1 => 5 | 2 => 8
  | 3 => 1 | 4 => 4 | 5 => 7
  | 6 => 0 | 7 => 3 | 8 => 6

/-- `CubeModel._rotateFace180` source indices. -/
def src180 : Fin 9 → Fin 9
  | 0 => 8 | 1 => 7 | 2 => 6
  | 3 => 5 | 4 => 4 | 5 => 3
  | 6 => 2 | 7 => 1 | 8 => 0

def rotateFaceCW {α : Type} (g : Grid α) (face : Face) : Grid α :=
  fun f i => if f = face then g face (cwSrc i) else g f i

def rotateFaceCCW {α : Type} (g : Grid α) (face : Face) : Grid α :=
  fun f i => if f = face then g face (ccwSrc i) else g f i

def rotateFace180 {α : Type} (g : Grid α) (face : Face) : Grid α :=
  fun f i => if f = face then g face (src180 i) else g f i

/-- The inner loop of `_cycle4` for one `i`: for each `j`,
`this.faces[dest[j]] = this.faces[src[j]]`, each assignment reading the grid
as left by the previous ones. -/
def copyStrip {α : Type} (g : Grid α) :
    List (Face × Fin 9) → List (Face × Fin 9) → Grid α
  | d :: ds, s :: ss => copyStrip (setCell g d.1 d.2 (g s.1 s.2)) ds ss
  | _, _ => g

/-- The final loop of `_cycle4`: write the saved `temp` values into the
positions of strip 0. -/
def writeStrip {α : Type} (g : Grid α) :
    List (Face × Fin 9) → List α → Grid α
  | d :: ds, v :: vs => writeStrip (setCell g d.1 d.2 v) ds vs
  | _, _ => g

/-- `CubeModel._cycle4(strips)`: save the values of strip 3, copy strip 2 into
strip 3, strip 1 into strip 2, strip 0 into strip 1 (in that order, `i` from 3
down to 1), then write the saved values into strip 0. -/
def cycle4 {α : Type} (g : Grid α) (strips : List (List (Face × Fin 9))) :
    Grid α :=
  match strips with
  | [s0, s1, s2, s3] =>
    let temp := s3.map fun p => g p.1 p.2
    let g1 := copyStrip g s3 s2
    let g2 := copyStrip g1 s2 s1
    let g3 := copyStrip g2 s1 s0
    writeStrip g3 s0 temp
  | _ => g

/-- Iterate `_cycle4` `times` times (the `for (let t = 0; t < times; t++)`
loops in `_applyEdgeCycle` / `_applyMiddleCycle`). -/
def cycleN {α : Type} (strips : List (List (Face × Fin 9))) :
    Grid α → Nat → Grid α
  | g, 0 => g
  | g, n + 1 => cycleN strips (cycle4 g strips) n

end CubeModel

/-- `EDGE_CYCLES` from `CubeModel.js`: for each face, 4 strips of 3
`[face, index]` pairs cycled by a clockwise turn of that face. -/
def EDGE_CYCLES : Face → List (List (Face × Fin 9))
  | .R =>
    [[(.F, 2), (.F, 5), (.F, 8)],
     [(.U, 8), (.U, 5), (.U, 2)],
     [(.B, 6), (.B, 3), (.B, 0)],
     [(.D, 8), (.D, 5), (.D, 2)]]
  | .L =>
    [[(.F, 0), (.F, 3), (.F, 6)],
     [(.D, 6), (.D, 3), (.D, 0)],
     [(.B, 8), (.B, 5), (.B, 2)],
     [(.U, 6), (.U, 3), (.U, 0)]]
  | .U =>
    [[(.F, 0), (.F, 1), (.F, 2)],
     [(.L, 0), (.L, 1), (.L, 2)],
     [(.B, 0), (.B, 1), (.B, 2)],
     [(.R, 0), (.R, 1), (.R, 2)]]
  | .D =>
    [[(.F, 6), (.F, 7), (.F, 8)],
     [(.R, 6), (.R, 7), (.R, 8)],
     [(.B, 6), (.B, 7), (.B, 8)],
     [(.L, 6), (.L, 7), (.L, 8)]]
  | .F =>
    [[(.U, 0), (.U, 1), (.U, 2)],
     [(.R, 0), (.R, 3), (.R, 6)],
     [(.D, 8), (.D, 7), (.D, 6)],
     [(.L, 8), (.L, 5), (.L, 2)]]
  | .B =>
    [[(.U, 6), (.U, 7), (.U, 8)],
     [(.L, 6), (.L, 3), (.L, 0)],
     [(.D, 2), (.D, 1), (.D, 0)],
     [(.R, 2), (.R, 5), (.R, 8)]]

/-- `MIDDLE_CYCLES` from `CubeModel.js`: the middle-slice strips carried along
by a wide move of each face. -/
def MIDDLE_CYCLES : Face → List (List (Face × Fin 9))
  | .R =>
    [[(.D, 1), (.D, 4), (.D, 7)],
     [(.F, 7), (.F, 4), (.F, 1)],
     [(.U, 1), (.U, 4), (.U, 7)],
     [(.B, 1), (.B, 4), (.B, 7)]]
  | .L =>
    [[(.D, 1), (.D, 4), (.D, 7)],
     [(.B, 1), (.B, 4), (.B, 7)],
     [(.U, 1), (.U, 4), (.U, 7)],
     [(.F, 7), (.F, 4), (.F, 1)]]
  | .U =>
    [[(.L, 3), (.L, 4), (.L, 5)],
     [(.B, 3), (.B, 4), (.B, 5)],
     [(.R, 3), (.R, 4), (.R, 5)],
     [(.F, 3), (.F, 4), (.F, 5)]]
  | .D =>
    [[(.L, 3), (.L, 4), (.L, 5)],
     [(.F, 3), (.F, 4), (.F, 5)],
     [(.R, 3), (.R, 4), (.R, 5)],
     [(.B, 3), (.B, 4), (.B, 5)]]
  | .F =>
    [[(.L, 1), (.L, 4), (.L, 7)],
     [(.U, 5), (.U, 4), (.U, 3)],
     [(.R, 7), (.R, 4), (.R, 1)],
     [(.D, 3), (.D, 4), (.D, 5)]]
  | .B =>
    [[(.L, 1), (.L, 4), (.L, 7)],
     [(.D, 3), (.D, 4), (.D, 5)],
     [(.R, 7), (.R, 4), (.R, 1)],
     [(.U, 5), (.U, 4), (.U, 3)]]

/-- A move descriptor (class `Move` in `MoveParser.js`).  The constructor
also stores `axis`, `layer`, `direction` and `angle`, but those are functions
of the four fields below and are only consumed by the animator/renderer, so
they are derived definitions here rather than stored fields. -/
structure Move where
  face : Face
  prime : Bool
  double : Bool
  wide : Bool
deriving DecidableEq, Repr, Fintype

instance : Inhabited Move := ⟨⟨.R, false, false, false⟩⟩

/-- `Move.inverse` from `MoveParser.js`: a half-turn is self-inverse,
otherwise flip `prime`. -/
def Move.inverse (m : Move) : Move :=
  if m.double then ⟨m.face, false, true, m.wide⟩
  else ⟨m.face, !m.prime, false, m.wide⟩

/-- The parser never emits a move with both `prime` and `double` set; moves
satisfying this are the well-formed descriptors. -/
def MoveWf (m : Move) : Prop := ¬(m.prime = true ∧ m.double = true)

instance (m : Move) : Decidable (MoveWf m) := by unfold MoveWf; infer_instance

namespace CubeModel

/-- `CubeModel._applyEdgeCycle`. -/
def applyEdgeCycle {α : Type} (g : Grid α) (face : Face) (times : Nat) :
    Grid α :=
  cycleN (EDGE_CYCLES face) g times

/-- `CubeModel._applyMiddleCycle` (the `if (!cycles) return` guard is dead
code: `MIDDLE_CYCLES` has an entry for all six faces). -/
def applyMiddleCycle {α : Type} (g : Grid α) (face : Face) (times : Nat) :
    Grid α :=
  cycleN (MIDDLE_CYCLES face) g times

/-- `CubeModel.applyMove` restricted to the facelet grid.  The
`recordHistory` flag only appends to `this.history`, which is consumed by
`undo()` alone and is passed as `false` at every controller call site, so the
history is not part of this embedding. -/
def applyMove {α : Type} (g : Grid α) (m : Move) : Grid α :=
  if m.double then
    let g1 := rotateFace180 g m.face
    let g2 := applyEdgeCycle g1 m.face 2
    if m.wide then applyMiddleCycle g2 m.face 2 else g2
  else if m.prime = false then
    let g1 := rotateFaceCW g m.face
    let g2 := applyEdgeCycle g1 m.face 1
    if m.wide then applyMiddleCycle g2 m.face 1 else g2
  else
    let g1 := rotateFaceCCW g m.face
    let g2 := applyEdgeCycle g1 m.face 3
    if m.wide then applyMiddleCycle g2 m.face 3 else g2

/-- `CubeModel.applyMoves`: apply a sequence of moves in order. -/
def applyMoves {α : Type} (g : Grid α) (moves : List Move) : Grid α :=
  moves.foldl applyMove g

end CubeModel

/-! ### The notation parser (`MoveParser.js`) -/

/-- `const FACES = ['R', 'L', 'U', 'D', 'F', 'B']` from `MoveParser.js`. -/
def FACES : List Face := [.R, .L, .U, .D, .F, .B]

/-- The `FACES.includes(ch)` check together with the use of the letter as the
face key: which upper-case letter names which face. -/
def charToFace : Char → Option Face
  | 'R' => some .R
  | 'L' => some .L
  | 'U' => some .U
  | 'D' => some .D
  | 'F' => some .F
  | 'B' => some .B
  | _ => none

/-- Upper-case letter of a face, as used by `Move.toString`. -/
def Face.toChar : Face → Char
  | .R => 'R' | .L => 'L' | .U => 'U' | .D => 'D' | .F => 'F' | .B => 'B'

/-- Lower-case letter of a face (`this.face.toLowerCase()` in
`Move.toString`). -/
def Face.toLowerChar : Face → Char
  | .R => 'r' | .L => 'l' | .U => 'u' | .D => 'd' | .F => 'f' | .B => 'b'

/-- `Move.toString`: face letter (lower-case when wide), then `2` when
double, then `'` when prime.  Strings are modelled as character lists. -/
def Move.toString (m : Move) : List Char :=
  (if m.wide then m.face.toLowerChar else m.face.toChar) ::
    ((if m.double then ['2'] else []) ++ (if m.prime then ['\''] else []))

/-- Whitespace for the `trim()` / `split(/\s+/)` step.  JavaScript `\s`
matches a larger set, but any extra whitespace character is also skipped by
the per-token scan as an unrecognized character, with the same parse
result. -/
def isWs (c : Char) : Bool :=
  c = ' ' || c = '\t' || c = '\n' || c = '\r'

/-- Split a string into its maximal runs of non-whitespace characters — the
behaviour of `algorithm.trim().split(/\s+/)` combined with the early return
`if (!algorithm || !algorithm.trim()) return []` for empty or all-whitespace
input.  `acc` holds the (reversed) characters of the run being read. -/
def splitWsAux : List Char → List Char → List (List Char)
  | [], acc => if acc.isEmpty then [] else [acc.reverse]
  | c :: rest, acc =>
    if isWs c then
      if acc.isEmpty then splitWsAux rest []
      else acc.reverse :: splitWsAux rest []
    else splitWsAux rest (c :: acc)

def splitWs (s : List Char) : List (List Char) := splitWsAux s []

namespace MoveParser

/-- `const wide = raw >= 'a' && raw <= 'z'` in `MoveParser.parse`. -/
def wideOf (c : Char) : Bool := decide ('a' ≤ c) && decide (c ≤ 'z')

/-- The per-token scan of `MoveParser.parse`: walk the token left to right;
a character whose upper-case form is not a face letter is skipped; a face
letter starts a move (lower-case original ⇒ wide) and consumes at most one
following `'` or `2` modifier (only when a next character exists, the
`i + 1 < token.length` check). -/
def parseToken : List Char → List Move
  | [] => []
  | [c] =>
    match charToFace c.toUpper with
    | none => []
    | some f => [{ face := f, prime := false, double := false, wide := wideOf c }]
  | c :: d :: rest =>
    match charToFace c.toUpper with
    | none => parseToken (d :: rest)
    | some f =>
      if d = '\'' then
        { face := f, prime := true, double := false, wide := wideOf c } ::
          parseToken rest
      else if d = '2' then
        { face := f, prime := false, double := true, wide := wideOf c } ::
          parseToken rest
      else
        { face := f, prime := false, double := false, wide := wideOf c } ::
          parseToken (d :: rest)

/-- `MoveParser.parse`: split on whitespace, scan each token, concatenate. -/
def parse (algorithm : List Char) : List Move :=
  ((splitWs algorithm).map parseToken).flatten

/-- `MoveParser.toString`: stringify each move and join with single
spaces. -/
def toString (moves : List Move) : List Char :=
  (List.intersperse [' '] (moves.map Move.toString)).flatten

end MoveParser

/-- Sample notation inputs used by the witnesses below.  `sampleWideText`
is the spec scenario `r2 U\x27`; `sampleNoiseText` mixes unrecognized
characters with a prime move. -/
def sampleAlgText : List Char := "R U".toList

def sampleSetupText : List Char := "F".toList

def sampleWideText : List Char := ['r', '2', ' ', 'u', '\'']

def sampleNoiseText : List Char := ['x', ' ', 'U', '\'', ' ', 'y']

/-- The spec scenario: `parse("r2 u\x27")` yields exactly a wide double R
move and a wide prime U move. -/
theorem parse_sampleWideText :
    MoveParser.parse sampleWideText
      = [{ face := .R, prime := false, double := true, wide := true },
        { face := .U, prime := true, double := false, wide := true }] := by
  decide

/-- Unrecognized characters are skipped without error. -/
theorem parse_sampleNoiseText :
    MoveParser.parse sampleNoiseText
      = [{ face := .U, prime := true, double := false, wide := false }] := by
  decide

/-! ### The grid operations act by permuting positions

`CubeModel.applyMove` only moves stored values around: it commutes with any
relabelling of the stored values.  This lets every ∀-grid property be reduced
to a finite check on the grid that stores its own position in every cell. -/

/-- Relabel every stored value of a grid. -/
def mapGrid {α β : Type} (h : α → β) (g : Grid α) : Grid β :=
  fun f i => h (g f i)

/-- The grid in which every cell stores its own position. -/
def idGrid : Grid (Face × Fin 9) := fun f i => (f, i)

namespace CubeModel

theorem setCell_map {α β : Type} (h : α → β) (g : Grid α) (f : Face)
    (i : Fin 9) (c : α) :
    setCell (mapGrid h g) f i (h c) = mapGrid h (setCell g f i c) := by
  funext f' i'
  simp only [setCell, mapGrid]
  split <;> rfl

theorem copyStrip_map {α β : Type} (h : α → β) :
    ∀ (d s : List (Face × Fin 9)) (g : Grid α),
      copyStrip (mapGrid h g) d s = mapGrid h (copyStrip g d s)
  | [], [], _ => rfl
  | [], _ :: _, _ => rfl
  | _ :: _, [], _ => rfl
  | d :: ds, s :: ss, g => by
    show copyStrip (setCell (mapGrid h g) d.1 d.2 (mapGrid h g s.1 s.2)) ds ss
        = mapGrid h (copyStrip (setCell g d.1 d.2 (g s.1 s.2)) ds ss)
    rw [show mapGrid h g s.1 s.2 = h (g s.1 s.2) from rfl, setCell_map,
      copyStrip_map h ds ss]

theorem writeStrip_map {α β : Type} (h : α → β) :
    ∀ (d : List (Face × Fin 9)) (vs : List α) (g : Grid α),
      writeStrip (mapGrid h g) d (vs.map h) = mapGrid h (writeStrip g d vs)
  | [], [], _ => rfl
  | [], _ :: _, _ => rfl
  | _ :: _, [], _ => rfl
  | d :: ds, v :: vs, g => by
    show writeStrip (setCell (mapGrid h g) d.1 d.2 (h v)) ds (vs.map h)
        = mapGrid h (writeStrip (setCell g d.1 d.2 v) ds vs)
    rw [setCell_map, writeStrip_map h ds vs]

theorem cycle4_map {α β : Type} (h : α → β) (g : Grid α)
    (strips : List (List (Face × Fin 9))) :
    cycle4 (mapGrid h g) strips = mapGrid h (cycle4 g strips) := by
  rcases strips with _ | ⟨s0, _ | ⟨s1, _ | ⟨s2, _ | ⟨s3, _ | ⟨s4, rest⟩⟩⟩⟩⟩ <;>
    try rfl
  show writeStrip
      (copyStrip (copyStrip (copyStrip (mapGrid h g) s3 s2) s2 s1) s1 s0) s0
      (s3.map fun p => mapGrid h g p.1 p.2)
    = mapGrid h (writeStrip
        (copyStrip (copyStrip (copyStrip g s3 s2) s2 s1) s1 s0) s0
        (s3.map fun p => g p.1 p.2))
  rw [show (s3.map fun p => mapGrid h g p.1 p.2)
        = (s3.map fun p => g p.1 p.2).map h by
      rw [List.map_map]; rfl,
    copyStrip_map, copyStrip_map, copyStrip_map, writeStrip_map]

theorem cycleN_map {α β : Type} (h : α → β)
    (strips : List (List (Face × Fin 9))) :
    ∀ (n : Nat) (g : Grid α),
      cycleN strips (mapGrid h g) n = mapGrid h (cycleN strips g n)
  | 0, _ => rfl
  | n + 1, g => by
    show cycleN strips (cycle4 (mapGrid h g) strips) n
        = mapGrid h (cycleN strips (cycle4 g strips) n)
    rw [cycle4_map, cycleN_map h strips n]

theorem rotateFaceCW_map {α β : Type} (h : α → β) (g : Grid α) (face : Face) :
    rotateFaceCW (mapGrid h g) face = mapGrid h (rotateFaceCW g face) := by
  funext f i
  simp only [rotateFaceCW, mapGrid]
  split <;> rfl

theorem rotateFaceCCW_map {α β : Type} (h : α → β) (g : Grid α) (face : Face) :
    rotateFaceCCW (mapGrid h g) face = mapGrid h (rotateFaceCCW g face) := by
  funext f i
  simp only [rotateFaceCCW, mapGrid]
  split <;> rfl

theorem rotateFace180_map {α β : Type} (h : α → β) (g : Grid α) (face : Face) :
    rotateFace180 (mapGrid h g) face = mapGrid h (rotateFace180 g face) := by
  funext f i
  simp only [rotateFace180, mapGrid]
  split <;> rfl

theorem applyMove_map {α β : Type} (h : α → β) (g : Grid α) (m : Move) :
    applyMove (mapGrid h g) m = mapGrid h (applyMove g m) := by
  simp only [applyMove, applyEdgeCycle, applyMiddleCycle]
  split
  · split <;> simp only [rotateFace180_map, cycleN_map]
  · split
    · split <;> simp only [rotateFaceCW_map, cycleN_map]
    · split <;> simp only [rotateFaceCCW_map, cycleN_map]

theorem applyMoves_map {α β : Type} (h : α → β) :
    ∀ (moves : List Move) (g : Grid α),
      applyMoves (mapGrid h g) moves = mapGrid h (applyMoves g moves)
  | [], _ => rfl
  | m :: ms, g => by
    show applyMoves (applyMove (mapGrid h g) m) ms
        = mapGrid h (applyMoves (applyMove g m) ms)
    rw [applyMove_map, applyMoves_map h ms]

end CubeModel

/-- Cell lookup of a grid, as a function on positions. -/
def gridLookup {α : Type} (g : Grid α) : Face × Fin 9 → α :=
  fun p => g p.1 p.2

namespace CubeModel

/-- Any grid is the relabelling of the position grid by its own lookup. -/
theorem grid_eq_map {α : Type} (g : Grid α) :
    g = mapGrid (gridLookup g) idGrid := rfl

set_option maxHeartbeats 0 in
set_option maxRecDepth 100000 in
/-- Finite check, face by face (one decide per face keeps elaboration memory
bounded): on the grid of positions, a well-formed move followed by its
inverse is the identity. -/
theorem applyMove_inverse_id_U :
    ∀ (p d w : Bool), MoveWf ⟨.U, p, d, w⟩ →
      applyMove (applyMove idGrid ⟨.U, p, d, w⟩) (Move.inverse ⟨.U, p, d, w⟩)
        = idGrid := by decide

set_option maxHeartbeats 0 in
set_option maxRecDepth 100000 in
theorem applyMove_inverse_id_D :
    ∀ (p d w : Bool), MoveWf ⟨.D, p, d, w⟩ →
      applyMove (applyMove idGrid ⟨.D, p, d, w⟩) (Move.inverse ⟨.D, p, d, w⟩)
        = idGrid := by decide

set_option maxHeartbeats 0 in
set_option maxRecDepth 100000 in
theorem applyMove_inverse_id_F :
    ∀ (p d w : Bool), MoveWf ⟨.F, p, d, w⟩ →
      applyMove (applyMove idGrid ⟨.F, p, d, w⟩) (Move.inverse ⟨.F, p, d, w⟩)
        = idGrid := by decide

set_option maxHeartbeats 0 in
set_option maxRecDepth 100000 in
theorem applyMove_inverse_id_B :
    ∀ (p d w : Bool), MoveWf ⟨.B, p, d, w⟩ →
      applyMove (applyMove idGrid ⟨.B, p, d, w⟩) (Move.inverse ⟨.B, p, d, w⟩)
        = idGrid := by decide

set_option maxHeartbeats 0 in
set_option maxRecDepth 100000 in
theorem applyMove_inverse_id_R :
    ∀ (p d w : Bool), MoveWf ⟨.R, p, d, w⟩ →
      applyMove (applyMove idGrid ⟨.R, p, d, w⟩) (Move.inverse ⟨.R, p, d, w⟩)
        = idGrid := by decide

set_option maxHeartbeats 0 in
set_option maxRecDepth 100000 in
theorem applyMove_inverse_id_L :
    ∀ (p d w : Bool), MoveWf ⟨.L, p, d, w⟩ →
      applyMove (applyMove idGrid ⟨.L, p, d, w⟩) (Move.inverse ⟨.L, p, d, w⟩)
        = idGrid := by decide

/-- On the grid of positions, a well-formed move followed by its inverse is
the identity. -/
theorem applyMove_inverse_id :
    ∀ m : Move, MoveWf m →
      applyMove (applyMove idGrid m) m.inverse = idGrid := by
  rintro ⟨fc, p, d, w⟩ hm
  cases fc
  · exact applyMove_inverse_id_U p d w hm
  · exact applyMove_inverse_id_D p d w hm
  · exact applyMove_inverse_id_F p d w hm
  · exact applyMove_inverse_id_B p d w hm
  · exact applyMove_inverse_id_R p d w hm
  · exact applyMove_inverse_id_L p d w hm

/-- Applying a move to any grid is a relabelling of applying it to the grid
of positions. -/
theorem applyMove_via_id {α : Type} (g : Grid α) (m : Move) :
    applyMove g m = mapGrid (gridLookup g) (applyMove idGrid m) :=
  (congrArg (fun gr => applyMove gr m) (grid_eq_map g)).trans
    (applyMove_map (gridLookup g) idGrid m)

/-- A well-formed move followed by its inverse restores any grid. -/
theorem applyMove_inverse_cancel {α : Type} (g : Grid α) (m : Move)
    (hm : MoveWf m) :
    applyMove (applyMove g m) m.inverse = g := by
  rw [applyMove_via_id g m, applyMove_map, applyMove_inverse_id m hm]
  exact (grid_eq_map g).symm

set_option maxHeartbeats 0 in
set_option maxRecDepth 100000 in
/-- Finite check, face by face: on the grid of positions, a half-turn equals
two clockwise quarter turns. -/
theorem half_turn_id_U :
    ∀ w : Bool,
      applyMove idGrid { face := .U, prime := false, double := true, wide := w }
        = applyMove
            (applyMove idGrid
              { face := .U, prime := false, double := false, wide := w })
            { face := .U, prime := false, double := false, wide := w } := by
  decide

set_option maxHeartbeats 0 in
set_option maxRecDepth 100000 in
theorem half_turn_id_D :
    ∀ w : Bool,
      applyMove idGrid { face := .D, prime := false, double := true, wide := w }
        = applyMove
            (applyMove idGrid
              { face := .D, prime := false, double := false, wide := w })
            { face := .D, prime := false, double := false, wide := w } := by
  decide

set_option maxHeartbeats 0 in
set_option maxRecDepth 100000 in
theorem half_turn_id_F :
    ∀ w : Bool,
      applyMove idGrid { face := .F, prime := false, double := true, wide := w }
        = applyMove
            (applyMove idGrid
              { face := .F, prime := false, double := false, wide := w })
            { face := .F, prime := false, double := false, wide := w } := by
  decide

set_option maxHeartbeats 0 in
set_option maxRecDepth 100000 in
theorem half_turn_id_B :
    ∀ w : Bool,
      applyMove idGrid { face := .B, prime := false, double := true, wide := w }
        = applyMove
            (applyMove idGrid
              { face := .B, prime := false, double := false, wide := w })
            { face := .B, prime := false, double := false, wide := w } := by
  decide

set_option maxHeartbeats 0 in
set_option maxRecDepth 100000 in
theorem half_turn_id_R :
    ∀ w : Bool,
      applyMove idGrid { face := .R, prime := false, double := true, wide := w }
        = applyMove
            (applyMove idGrid
              { face := .R, prime := false, double := false, wide := w })
            { face := .R, prime := false, double := false, wide := w } := by
  decide

set_option maxHeartbeats 0 in
set_option maxRecDepth 100000 in
theorem half_turn_id_L :
    ∀ w : Bool,
      applyMove idGrid { face := .L, prime := false, double := true, wide := w }
        = applyMove
            (applyMove idGrid
              { face := .L, prime := false, double := false, wide := w })
            { face := .L, prime := false, double := false, wide := w } := by
  decide

/-- On the grid of positions, a half-turn equals two clockwise quarter
turns. -/
theorem half_turn_id :
    ∀ (fc : Face) (w : Bool),
      applyMove idGrid { face := fc, prime := false, double := true, wide := w }
        = applyMove
            (applyMove idGrid
              { face := fc, prime := false, double := false, wide := w })
            { face := fc, prime := false, double := false, wide := w } := by
  intro fc w
  cases fc
  · exact half_turn_id_U w
  · exact half_turn_id_D w
  · exact half_turn_id_F w
  · exact half_turn_id_B w
  · exact half_turn_id_R w
  · exact half_turn_id_L w

end CubeModel

/-- C2: For every 6x9 facelet grid and every move descriptor m whose face is
one of R, L, U, D, F, B, with any combination of prime, double and wide
(prime and double not both true), applying m via `CubeModel.applyMove` and
then applying `m.inverse()` restores every facelet of all 6 faces to its
prior value. -/
theorem C2_move_then_inverse_restores_grid (g : Grid Color) (m : Move)
    (hm : ¬(m.prime = true ∧ m.double = true)) :
    ∀ (f : Face) (i : Fin 9),
      CubeModel.applyMove (CubeModel.applyMove g m) m.inverse f i = g f i := by
  intro f i
  rw [CubeModel.applyMove_inverse_cancel g m hm]

set_option maxHeartbeats 1000000 in
theorem C2_move_then_inverse_restores_grid_witness :
    CubeModel.applyMove
        (CubeModel.applyMove solvedGrid
          { face := .R, prime := true, double := false, wide := true })
        (Move.inverse { face := .R, prime := true, double := false, wide := true })
      = solvedGrid := by
  funext f i
  exact C2_move_then_inverse_restores_grid solvedGrid
    { face := .R, prime := true, double := false, wide := true }
    (by decide) f i

/-- C3: For every face F, every wide flag w, and every starting facelet grid,
applying the half-turn descriptor (face F, double := true, wide := w) with
`CubeModel.applyMove` yields exactly the same grid as applying the plain
clockwise descriptor (face F, prime := false, double := false, wide := w)
twice. -/
theorem C3_half_turn_equals_two_quarter_turns (g : Grid Color) (fc : Face)
    (w : Bool) :
    CubeModel.applyMove g { face := fc, prime := false, double := true, wide := w }
      = CubeModel.applyMove
          (CubeModel.applyMove g
            { face := fc, prime := false, double := false, wide := w })
          { face := fc, prime := false, double := false, wide := w } := by
  rw [CubeModel.applyMove_via_id g
      { face := fc, prime := false, double := true, wide := w },
    CubeModel.applyMove_via_id g
      { face := fc, prime := false, double := false, wide := w },
    CubeModel.applyMove_map, CubeModel.half_turn_id fc w]

/-! ### Parser lemmas: well-formedness, provenance, and the grammar
round-trip -/

namespace MoveParser

/-- Every move emitted by the token scan has at most one of `prime`,
`double` set (the scanner consumes at most one modifier). -/
theorem parseToken_wf :
    ∀ (tok : List Char) (m : Move), m ∈ parseToken tok → MoveWf m
  | [], m, h => by simp [parseToken] at h
  | [c], m, h => by
    simp only [parseToken] at h
    split at h
    · simp at h
    · simp only [List.mem_singleton] at h
      subst h
      simp [MoveWf]
  | c :: d :: rest, m, h => by
    simp only [parseToken] at h
    split at h
    · exact parseToken_wf (d :: rest) m h
    · split at h
      · rcases List.mem_cons.mp h with h | h
        · subst h; simp [MoveWf]
        · exact parseToken_wf rest m h
      · split at h
        · rcases List.mem_cons.mp h with h | h
          · subst h; simp [MoveWf]
          · exact parseToken_wf rest m h
        · rcases List.mem_cons.mp h with h | h
          · subst h; simp [MoveWf]
          · exact parseToken_wf (d :: rest) m h

/-- Every face letter of a move emitted by the token scan comes from a
character of the token that passes the `FACES.includes` check. -/
theorem parseToken_face_from_input :
    ∀ (tok : List Char) (m : Move), m ∈ parseToken tok →
      ∃ c ∈ tok, charToFace c.toUpper = some m.face
  | [], m, h => by simp [parseToken] at h
  | [c], m, h => by
    simp only [parseToken] at h
    split at h
    · simp at h
    · simp only [List.mem_singleton] at h
      subst h
      exact ⟨c, List.mem_singleton_self c, by assumption⟩
  | c :: d :: rest, m, h => by
    simp only [parseToken] at h
    split at h
    · obtain ⟨c', hc', hf⟩ := parseToken_face_from_input (d :: rest) m h
      exact ⟨c', List.mem_cons_of_mem c hc', hf⟩
    · split at h
      · rcases List.mem_cons.mp h with h | h
        · subst h; exact ⟨c, List.mem_cons_self c _, by assumption⟩
        · obtain ⟨c', hc', hf⟩ := parseToken_face_from_input rest m h
          exact ⟨c', List.mem_cons_of_mem c (List.mem_cons_of_mem d hc'), hf⟩
      · split at h
        · rcases List.mem_cons.mp h with h | h
          · subst h; exact ⟨c, List.mem_cons_self c _, by assumption⟩
          · obtain ⟨c', hc', hf⟩ := parseToken_face_from_input rest m h
            exact ⟨c', List.mem_cons_of_mem c (List.mem_cons_of_mem d hc'), hf⟩
        · rcases List.mem_cons.mp h with h | h
          · subst h; exact ⟨c, List.mem_cons_self c _, by assumption⟩
          · obtain ⟨c', hc', hf⟩ := parseToken_face_from_input (d :: rest) m h
            exact ⟨c', List.mem_cons_of_mem c hc', hf⟩

/-- Finite check: scanning the stringification of a well-formed move yields
exactly that move back. -/
theorem parseToken_toString :
    ∀ m : Move, MoveWf m → parseToken (Move.toString m) = [m] := by decide

end MoveParser

/-- Characters of a whitespace split group come from the scanned string or
the accumulator. -/
theorem splitWsAux_chars :
    ∀ (s acc t : List Char), t ∈ splitWsAux s acc →
      ∀ c ∈ t, c ∈ s ∨ c ∈ acc
  | [], acc, t, ht => by
    intro c hc
    simp only [splitWsAux] at ht
    split at ht
    · simp at ht
    · simp only [List.mem_singleton] at ht
      subst ht
      exact Or.inr (List.mem_reverse.mp hc)
  | ch :: rest, acc, t, ht => by
    intro c hc
    simp only [splitWsAux] at ht
    split at ht
    · split at ht
      · rcases splitWsAux_chars rest [] t ht c hc with h | h
        · exact Or.inl (List.mem_cons_of_mem ch h)
        · simp at h
      · rcases List.mem_cons.mp ht with h | h
        · subst h
          exact Or.inr (List.mem_reverse.mp hc)
        · rcases splitWsAux_chars rest [] t h c hc with h' | h'
          · exact Or.inl (List.mem_cons_of_mem ch h')
          · simp at h'
    · rcases splitWsAux_chars rest (ch :: acc) t ht c hc with h | h
      · exact Or.inl (List.mem_cons_of_mem ch h)
      · rcases List.mem_cons.mp h with h' | h'
        · exact Or.inl (h' ▸ List.mem_cons_self ch rest)
        · exact Or.inr h'

/-- Characters of a whitespace split group come from the split string. -/
theorem splitWs_chars (s : List Char) (t : List Char) (ht : t ∈ splitWs s) :
    ∀ c ∈ t, c ∈ s := by
  intro c hc
  rcases splitWsAux_chars s [] t ht c hc with h | h
  · exact h
  · simp at h

/-- Scanning a run of non-whitespace characters moves it into the
accumulator. -/
theorem splitWsAux_append_run :
    ∀ (t s acc : List Char), (∀ c ∈ t, isWs c = false) →
      splitWsAux (t ++ s) acc = splitWsAux s (t.reverse ++ acc)
  | [], _, _, _ => by simp
  | c :: t', s, acc, h => by
    have hc : isWs c = false := h c (List.mem_cons_self c t')
    show splitWsAux (c :: (t' ++ s)) acc = _
    simp only [splitWsAux, hc, Bool.false_eq_true, if_false]
    rw [splitWsAux_append_run t' s (c :: acc)
      (fun x hx => h x (List.mem_cons_of_mem c hx))]
    simp [List.append_assoc]

/-- Scanning a whitespace character flushes the accumulator. -/
theorem splitWsAux_ws_cons (s acc : List Char) :
    splitWsAux (' ' :: s) acc
      = if acc.isEmpty then splitWsAux s []
        else acc.reverse :: splitWsAux s [] := by
  simp only [splitWsAux, show isWs ' ' = true from rfl, if_true]

/-- Splitting the space-joined concatenation of nonempty whitespace-free
groups recovers exactly those groups. -/
theorem splitWs_join_groups :
    ∀ ts : List (List Char),
      (∀ t ∈ ts, t ≠ [] ∧ ∀ c ∈ t, isWs c = false) →
      splitWs ((List.intersperse [' '] ts).flatten) = ts
  | [], _ => rfl
  | [t], h => by
    obtain ⟨hne, hnws⟩ := h t (List.mem_singleton_self t)
    show splitWsAux ((List.intersperse [' '] [t]).flatten) [] = [t]
    rw [List.intersperse_singleton, List.flatten_cons, List.flatten_nil,
      splitWsAux_append_run t [] [] hnws]
    simp only [splitWsAux, List.append_nil, List.isEmpty_eq_true,
      List.reverse_eq_nil_iff]
    rw [if_neg hne]
    simp
  | t :: t' :: ts, h => by
    obtain ⟨hne, hnws⟩ := h t (List.mem_cons_self t (t' :: ts))
    show splitWsAux _ [] = t :: t' :: ts
    rw [List.intersperse_cons_cons, List.flatten_cons, List.flatten_cons,
      splitWsAux_append_run t _ [] hnws]
    show splitWsAux (' ' :: (List.intersperse [' '] (t' :: ts)).flatten)
        (t.reverse ++ []) = t :: t' :: ts
    rw [splitWsAux_ws_cons]
    rw [if_neg (by simpa using hne)]
    simp only [List.append_nil, List.reverse_reverse]
    exact congrArg (t :: ·)
      (splitWs_join_groups (t' :: ts)
        (fun u hu => h u (List.mem_cons_of_mem t hu)))

namespace MoveParser

/-- Finite check: no character of a move's stringification is whitespace. -/
theorem toString_no_ws :
    ∀ (m : Move) (c : Char), c ∈ Move.toString m → isWs c = false := by decide

/-- Finite check: a move's stringification is nonempty. -/
theorem toString_ne_nil : ∀ m : Move, Move.toString m ≠ [] := by decide

/-- Scanning each stringified move of a well-formed list yields the list
back. -/
theorem parseTokens_map_toString :
    ∀ ms : List Move, (∀ m ∈ ms, MoveWf m) →
      ((ms.map Move.toString).map parseToken).flatten = ms
  | [], _ => rfl
  | m :: ms, h => by
    rw [List.map_cons, List.map_cons, List.flatten_cons,
      parseToken_toString m (h m (List.mem_cons_self m ms)),
      parseTokens_map_toString ms (fun x hx => h x (List.mem_cons_of_mem m hx))]
    rfl

/-- Grammar round-trip: parsing the stringification of any list of
well-formed moves gives the list back. -/
theorem parse_toString (ms : List Move) (h : ∀ m ∈ ms, MoveWf m) :
    parse (MoveParser.toString ms) = ms := by
  show ((splitWs ((List.intersperse [' '] (ms.map Move.toString)).flatten)).map
      parseToken).flatten = ms
  rw [splitWs_join_groups (ms.map Move.toString) ?groups]
  · exact parseTokens_map_toString ms h
  · intro t ht
    obtain ⟨m, _, rfl⟩ := List.mem_map.mp ht
    exact ⟨toString_ne_nil m, fun c hc => toString_no_ws m c hc⟩

/-- Every move produced by the parser is well-formed. -/
theorem parse_wf (s : List Char) (m : Move) (hm : m ∈ parse s) : MoveWf m := by
  obtain ⟨l, hl, hml⟩ := List.mem_flatten.mp hm
  obtain ⟨t, _, rfl⟩ := List.mem_map.mp hl
  exact parseToken_wf t m hml

end MoveParser

/-- A character permitted by the notation grammar: one of the 6 face letters
in either case, a modifier, or whitespace. -/
def notationChar (c : Char) : Prop :=
  (charToFace c.toUpper).isSome = true ∨ c = '\'' ∨ c = '2' ∨ isWs c = true

instance (c : Char) : Decidable (notationChar c) := by
  unfold notationChar; infer_instance

/-- C6: For every input text composed only of the 6 face letters (either
case), the modifier characters ' and 2, and whitespace,
`MoveParser.parse (MoveParser.toString (MoveParser.parse text))` yields a
descriptor sequence identical element-by-element (same face, prime, double,
wide) to `MoveParser.parse text`. -/
theorem C6_grammar_round_trip (text : List Char)
    (_htext : ∀ c ∈ text, notationChar c) :
    MoveParser.parse (MoveParser.toString (MoveParser.parse text))
      = MoveParser.parse text :=
  MoveParser.parse_toString (MoveParser.parse text)
    (MoveParser.parse_wf text)

theorem C6_grammar_round_trip_witness :
    MoveParser.parse
        (MoveParser.toString (MoveParser.parse sampleWideText))
      = MoveParser.parse sampleWideText :=
  C6_grammar_round_trip sampleWideText (by decide)

/-- C8: For every input string, every move descriptor returned by
`MoveParser.parse` has a face that is one of the 6 symbols of `FACES`, and
that face comes from an input character accepted by the `FACES.includes`
check; in this embedding the `EDGE_CYCLES` / `MIDDLE_CYCLES` tables and the
face arrays are total functions on exactly these six faces, so
`CubeModel.applyMove` never receives an unknown face from parser-produced
descriptors. -/
theorem C8_parser_only_emits_known_faces (s : List Char) (m : Move)
    (hm : m ∈ MoveParser.parse s) :
    m.face ∈ FACES ∧ ∃ c ∈ s, charToFace c.toUpper = some m.face := by
  refine ⟨by cases m.face <;> simp [FACES], ?_⟩
  obtain ⟨l, hl, hml⟩ := List.mem_flatten.mp hm
  obtain ⟨t, ht, rfl⟩ := List.mem_map.mp hl
  obtain ⟨c, hc, hface⟩ := MoveParser.parseToken_face_from_input t m hml
  exact ⟨c, splitWs_chars s t ht c hc, hface⟩

theorem C8_parser_only_emits_known_faces_witness :
    Face.U ∈ FACES
      ∧ ∃ c ∈ sampleNoiseText, charToFace c.toUpper = some Face.U :=
  C8_parser_only_emits_known_faces sampleNoiseText
    { face := .U, prime := true, double := false, wide := false } (by decide)

/-! ### The playback controller (`CubeController.js`)

The controller's `async` methods suspend exactly at
`await this.animator.animateMove(..)`.  The model makes those suspension
points explicit: `pending` is the animator's chain — the head is the
animation in flight, the rest the FIFO queue — paired with what the caller
does when its `await` returns.  A `drain` event is one animation completing:
the head continuation resumes (`CubeAnimator` starts the next queued
animation before the resolved `await` continues, so a new request from the
resumed code is appended behind the remaining queue).  `clearQueue`
discards only the not-yet-started entries, i.e. everything behind the head.
Rendering calls (`updateColors`, `resetCubies`) do not touch the model state
and are omitted; `recordHistory` is always `false` at controller call
sites. -/

/-- What a suspended `await animateMove(..)` does when it resumes:
the play loop iteration (`currentStep++`, notify, next loop test), the tail
of `stepForward` (`currentStep++`, notify), or the tail of `stepBackward`
(notify only). -/
inductive AwaitCont
  | playCont
  | stepFwdCont
  | stepBwdCont
deriving DecidableEq, Repr

/-- An observer notification: `onStepChange(currentStep, moves.length)` or
`onPlayStateChange(isPlaying)`. -/
inductive Notif
  | step (cur total : Nat)
  | playState (playing : Bool)
deriving DecidableEq, Repr

/-- The controller state: the fields of `CubeController` (`moves`,
`setupMoves`, `currentStep`, `isPlaying`, `_playAbort`), the `CubeModel`
facelet grid, the animator chain `pending`, and the log of emitted
notifications. -/
structure CtrlState where
  moves : List Move
  setupMoves : List Move
  currentStep : Nat
  isPlaying : Bool
  playAbort : Bool
  grid : Grid Color
  pending : List AwaitCont
  log : List Notif

namespace CubeController

/-- `CubeController._notifyStep`. -/
def notifyStep (s : CtrlState) : CtrlState :=
  { s with log := s.log ++ [Notif.step s.currentStep s.moves.length] }

/-- `CubeController._notifyPlayState`. -/
def notifyPlayState (s : CtrlState) : CtrlState :=
  { s with log := s.log ++ [Notif.playState s.isPlaying] }

/-- `CubeController.pause`: set the abort flag, leave `Playing`, notify. -/
def pauseFn (s : CtrlState) : CtrlState :=
  notifyPlayState { s with playAbort := true, isPlaying := false }

/-- `CubeAnimator.clearQueue`: drop the queued (not yet started) requests;
the in-flight head keeps running and its awaiter will still resume. -/
def clearQueueFn (s : CtrlState) : CtrlState :=
  { s with pending := s.pending.take 1 }

/-- `model.reset()` followed by `applyMoves(setupMoves, false)`. -/
def solvedPlusSetup (setup : List Move) : Grid Color :=
  CubeModel.applyMoves solvedGrid setup

/-- `CubeController.reset`. -/
def resetFn (s : CtrlState) : CtrlState :=
  let s1 := clearQueueFn (pauseFn s)
  notifyStep
    { s1 with currentStep := 0, grid := solvedPlusSetup s1.setupMoves }

/-- `CubeController.loadAlgorithm(algorithm, setupMoves = '')`.  The
JavaScript `setupMoves ? MoveParser.parse(setupMoves) : []` tests string
truthiness: the empty string parses to `[]`. -/
def loadAlgorithmFn (s : CtrlState) (algorithm setupText : List Char) :
    CtrlState :=
  let s1 := clearQueueFn (pauseFn s)
  let newMoves := MoveParser.parse algorithm
  let setup := if setupText.isEmpty then [] else MoveParser.parse setupText
  notifyStep
    { s1 with
      moves := newMoves, setupMoves := setup, currentStep := 0,
      grid := solvedPlusSetup setup }

/-- The synchronous part of `CubeController._executeStep`: apply the move at
the cursor to the model, request its animation (which joins the animator
chain) and suspend as continuation `c`. -/
def executeStep (s : CtrlState) (c : AwaitCont) : CtrlState :=
  { s with
    grid := CubeModel.applyMove s.grid (s.moves.getD s.currentStep default),
    pending := s.pending ++ [c] }

/-- The top of the `while` loop in `CubeController.play`: if the loop
condition `currentStep < moves.length && !playAbort` holds, run the next
iteration up to its `await` (apply the move, request its animation,
suspend); otherwise exit the loop (`isPlaying = false`, play-state
notification). -/
def playLoopEntry (s : CtrlState) : CtrlState :=
  if s.currentStep < s.moves.length ∧ s.playAbort = false then
    executeStep s AwaitCont.playCont
  else
    notifyPlayState { s with isPlaying := false }

/-- The synchronous prefix of `CubeController.play` (it runs up to the first
`await`): the `isPlaying` guard, the reset-at-end branch, entering
`Playing`, and the first loop test. -/
def playFn (s : CtrlState) : CtrlState :=
  if s.isPlaying = true then s
  else
    playLoopEntry
      (notifyPlayState
        { (if s.moves.length ≤ s.currentStep then resetFn s else s) with
          isPlaying := true, playAbort := false })

/-- `CubeController.stepForward` up to its `await`; the guard reads
`animator.isAnimating`, which is true exactly when the animator chain is
nonempty. -/
def stepForwardFn (s : CtrlState) : CtrlState :=
  if s.isPlaying = true ∨ s.pending ≠ [] then s
  else if s.moves.length ≤ s.currentStep then s
  else executeStep s AwaitCont.stepFwdCont

/-- `CubeController.stepBackward` up to its `await`: decrement the cursor,
apply the inverse of the move now at the cursor, request its animation. -/
def stepBackwardFn (s : CtrlState) : CtrlState :=
  if s.isPlaying = true ∨ s.pending ≠ [] then s
  else if s.currentStep ≤ 0 then s
  else
    let s1 := { s with currentStep := s.currentStep - 1 }
    { s1 with
      grid := CubeModel.applyMove s1.grid
        (s1.moves.getD s1.currentStep default).inverse,
      pending := s1.pending ++ [AwaitCont.stepBwdCont] }

/-- `CubeController.togglePlay`. -/
def togglePlayFn (s : CtrlState) : CtrlState :=
  if s.isPlaying = true then pauseFn s else playFn s

/-- Resuming a suspended continuation after its animation completed: the
play loop increments the cursor, notifies, and runs the loop test again;
`stepForward` increments the cursor and notifies; `stepBackward` only
notifies. -/
def resumeCont (s : CtrlState) : AwaitCont → CtrlState
  | .playCont =>
    playLoopEntry (notifyStep { s with currentStep := s.currentStep + 1 })
  | .stepFwdCont => notifyStep { s with currentStep := s.currentStep + 1 }
  | .stepBwdCont => notifyStep s

/-- The events of the model: the public controller operations, plus `drain`
(one animation completes and the head continuation resumes). -/
inductive Ev
  | load (algorithm setupText : List Char)
  | play
  | pause
  | togglePlay
  | stepForward
  | stepBackward
  | reset
  | drain
deriving DecidableEq, Repr

def applyEv (s : CtrlState) : Ev → CtrlState
  | .load a t => loadAlgorithmFn s a t
  | .play => playFn s
  | .pause => pauseFn s
  | .togglePlay => togglePlayFn s
  | .stepForward => stepForwardFn s
  | .stepBackward => stepBackwardFn s
  | .reset => resetFn s
  | .drain =>
    match s.pending with
    | [] => s
    | c :: rest => resumeCont { s with pending := rest } c

/-- The state built by the `CubeController` constructor. -/
def initState : CtrlState :=
  { moves := [], setupMoves := [], currentStep := 0, isPlaying := false,
    playAbort := false, grid := solvedGrid, pending := [], log := [] }

def runEvents (s : CtrlState) (evs : List Ev) : CtrlState :=
  evs.foldl applyEv s

/-- The grid demanded by the Playback Cursor invariant at cursor `n`:
solved, then the setup moves, then the first `n` algorithm moves. -/
def gridAt (s : CtrlState) (n : Nat) : Grid Color :=
  CubeModel.applyMoves (solvedPlusSetup s.setupMoves) (s.moves.take n)

/-- The grid demanded by the invariant at the current cursor. -/
def gridTarget (s : CtrlState) : Grid Color :=
  gridAt s s.currentStep

end CubeController

namespace CubeController

/-- Side condition of the amended C1 invariant: `loadAlgorithm`, `reset` and
`play` are invoked only when no animation or suspended continuation is
pending; `togglePlay` additionally while `Playing` (where it acts as
`pause`); `pause`, the step operations and animation completions may happen
at any time. -/
def okEv (s : CtrlState) : Ev → Prop
  | .load _ _ => s.pending = []
  | .reset => s.pending = []
  | .play => s.pending = []
  | .togglePlay => s.isPlaying = true ∨ s.pending = []
  | _ => True

instance (s : CtrlState) (e : Ev) : Decidable (okEv s e) := by
  cases e <;> · unfold okEv; infer_instance

/-- Every event of the trace satisfies its side condition in the state where
it fires. -/
def OkTrace : CtrlState → List Ev → Prop
  | _, [] => True
  | s, e :: evs => okEv s e ∧ OkTrace (applyEv s e) evs

instance instDecOkTrace : (s : CtrlState) → (evs : List Ev) →
    Decidable (OkTrace s evs)
  | _, [] => .isTrue trivial
  | s, e :: evs =>
    @instDecidableAnd _ _ inferInstance (instDecOkTrace (applyEv s e) evs)

/-- All loaded moves are well-formed (they come from the parser). -/
def movesWf (s : CtrlState) : Prop := ∀ m ∈ s.moves, MoveWf m

/-- The full controller invariant.  At quiescence the Playback Cursor
invariant holds; while one continuation is suspended the grid is ahead of or
at the cursor by exactly the move that was already applied before the
`await`; more than one continuation never pends under the side
conditions. -/
def InvFull (s : CtrlState) : Prop :=
  movesWf s ∧
  ((s.pending = [] ∧ s.isPlaying = false
      ∧ s.currentStep ≤ s.moves.length
      ∧ s.grid = gridAt s s.currentStep)
    ∨ (s.pending = [AwaitCont.playCont]
      ∧ s.currentStep < s.moves.length
      ∧ s.grid = gridAt s (s.currentStep + 1))
    ∨ (s.pending = [AwaitCont.stepFwdCont] ∧ s.isPlaying = false
      ∧ s.currentStep < s.moves.length
      ∧ s.grid = gridAt s (s.currentStep + 1))
    ∨ (s.pending = [AwaitCont.stepBwdCont] ∧ s.isPlaying = false
      ∧ s.currentStep ≤ s.moves.length
      ∧ s.grid = gridAt s s.currentStep))

/-- Applying the move at the cursor advances the target grid by one. -/
theorem gridAt_succ (s : CtrlState) (k : Nat) (hk : k < s.moves.length) :
    CubeModel.applyMove (gridAt s k) (s.moves.getD k default)
      = gridAt s (k + 1) := by
  unfold gridAt CubeModel.applyMoves
  rw [List.take_succ, List.foldl_append, List.getElem?_eq_getElem hk]
  have : s.moves.getD k default = s.moves[k] := by
    rw [List.getD_eq_getElem?_getD, List.getElem?_eq_getElem hk]
    rfl
  rw [this]
  rfl

/-- The move at the cursor is one of the loaded moves. -/
theorem getD_mem_of_lt (l : List Move) (k : Nat) (hk : k < l.length) :
    l.getD k default ∈ l := by
  rw [List.getD_eq_getElem?_getD, List.getElem?_eq_getElem hk]
  exact List.getElem_mem hk

end CubeController

namespace CubeController

theorem pauseFn_eq (s : CtrlState) :
    pauseFn s
      = { s with
          playAbort := true, isPlaying := false,
          log := s.log ++ [Notif.playState false] } := rfl

theorem resetFn_eq (s : CtrlState) :
    resetFn s
      = { s with
          playAbort := true, isPlaying := false,
          pending := s.pending.take 1, currentStep := 0,
          grid := solvedPlusSetup s.setupMoves,
          log := s.log ++ [Notif.playState false]
            ++ [Notif.step 0 s.moves.length] } := rfl

theorem loadAlgorithmFn_eq (s : CtrlState) (algorithm setupText : List Char) :
    loadAlgorithmFn s algorithm setupText
      = { s with
          playAbort := true, isPlaying := false,
          pending := s.pending.take 1,
          moves := MoveParser.parse algorithm,
          setupMoves :=
            if setupText.isEmpty then [] else MoveParser.parse setupText,
          currentStep := 0,
          grid := solvedPlusSetup
            (if setupText.isEmpty then [] else MoveParser.parse setupText),
          log := s.log ++ [Notif.playState false]
            ++ [Notif.step 0 (MoveParser.parse algorithm).length] } := rfl

/-- The target grid only depends on the loaded moves and setup moves. -/
theorem gridAt_congr (s t : CtrlState) (hm : t.moves = s.moves)
    (hs : t.setupMoves = s.setupMoves) (n : Nat) : gridAt t n = gridAt s n := by
  unfold gridAt
  rw [hm, hs]

/-- The cursor invariant holds right after `loadAlgorithm` from a quiescent
state. -/
theorem inv_load (s : CtrlState) (algorithm setupText : List Char)
    (hq : s.pending = []) :
    InvFull (loadAlgorithmFn s algorithm setupText) := by
  rw [loadAlgorithmFn_eq]
  constructor
  · intro m hm
    exact MoveParser.parse_wf algorithm m hm
  · refine Or.inl ⟨?_, rfl, Nat.zero_le _, ?_⟩
    · show s.pending.take 1 = []
      rw [hq]
      rfl
    · show solvedPlusSetup _ = gridAt _ 0
      rfl

/-- The cursor invariant is preserved by `reset` from a quiescent state. -/
theorem inv_reset (s : CtrlState) (hq : s.pending = []) (hwf : movesWf s) :
    InvFull (resetFn s) := by
  rw [resetFn_eq]
  constructor
  · intro m hm
    exact hwf m hm
  · refine Or.inl ⟨?_, rfl, Nat.zero_le _, ?_⟩
    · show s.pending.take 1 = []
      rw [hq]
      rfl
    · show solvedPlusSetup _ = gridAt _ 0
      rfl

/-- The invariant is preserved by `pause` (allowed in any state). -/
theorem inv_pause (s : CtrlState) (h : InvFull s) : InvFull (pauseFn s) := by
  obtain ⟨hwf, hcase⟩ := h
  rw [pauseFn_eq]
  refine ⟨fun m hm => hwf m hm, ?_⟩
  rcases hcase with ⟨h1, _, h3, h4⟩ | ⟨h1, h2, h3⟩ | ⟨h1, _, h3, h4⟩
    | ⟨h1, _, h3, h4⟩
  · exact Or.inl ⟨h1, rfl, h3, h4⟩
  · exact Or.inr (Or.inl ⟨h1, h2, h3⟩)
  · exact Or.inr (Or.inr (Or.inl ⟨h1, rfl, h3, h4⟩))
  · exact Or.inr (Or.inr (Or.inr ⟨h1, rfl, h3, h4⟩))

end CubeController

namespace CubeController

/-- At quiescence the invariant gives the Playback Cursor property. -/
theorem inv_quiescent (s : CtrlState) (h : InvFull s) (hq : s.pending = []) :
    s.isPlaying = false ∧ s.currentStep ≤ s.moves.length
      ∧ s.grid = gridAt s s.currentStep := by
  obtain ⟨_, hcase⟩ := h
  rcases hcase with ⟨_, h2, h3, h4⟩ | ⟨h1, _, _⟩ | ⟨h1, _, _, _⟩
    | ⟨h1, _, _, _⟩
  · exact ⟨h2, h3, h4⟩
  all_goals rw [hq] at h1
  all_goals cases h1

theorem applyEv_drain_nil (s : CtrlState) (hq : s.pending = []) :
    applyEv s Ev.drain = s := by
  show (match s.pending with
    | [] => s
    | c :: rest => resumeCont { s with pending := rest } c) = s
  rw [hq]

theorem applyEv_drain_cons (s : CtrlState) (c : AwaitCont)
    (rest : List AwaitCont) (hp : s.pending = c :: rest) :
    applyEv s Ev.drain = resumeCont { s with pending := rest } c := by
  show (match s.pending with
    | [] => s
    | c :: rest => resumeCont { s with pending := rest } c)
      = resumeCont { s with pending := rest } c
  rw [hp]

/-- The invariant is preserved by `stepForward` (allowed in any state). -/
theorem inv_stepForward (s : CtrlState) (h : InvFull s) :
    InvFull (stepForwardFn s) := by
  unfold stepForwardFn
  split
  · exact h
  · rename_i hguard
    push_neg at hguard
    obtain ⟨hplay, hq⟩ := hguard
    have hplay' : s.isPlaying = false := Bool.eq_false_iff.mpr hplay
    split
    · exact h
    · rename_i hlt
      push_neg at hlt
      obtain ⟨_, _, hgrid⟩ := inv_quiescent s h hq
      refine ⟨fun m hm => h.1 m hm,
        Or.inr (Or.inr (Or.inl ⟨?_, hplay', hlt, ?_⟩))⟩
      · show s.pending ++ [AwaitCont.stepFwdCont] = _
        rw [hq]
        rfl
      · show CubeModel.applyMove s.grid (s.moves.getD s.currentStep default)
          = gridAt _ (s.currentStep + 1)
        rw [hgrid, gridAt_succ s s.currentStep hlt]
        exact (gridAt_congr s _ rfl rfl _).symm

/-- The invariant is preserved by `stepBackward` (allowed in any state). -/
theorem inv_stepBackward (s : CtrlState) (h : InvFull s) :
    InvFull (stepBackwardFn s) := by
  unfold stepBackwardFn
  split
  · exact h
  · rename_i hguard
    push_neg at hguard
    obtain ⟨hplay, hq⟩ := hguard
    have hplay' : s.isPlaying = false := Bool.eq_false_iff.mpr hplay
    split
    · exact h
    · rename_i hpos
      push_neg at hpos
      obtain ⟨_, hle, hgrid⟩ := inv_quiescent s h hq
      have hjlt : s.currentStep - 1 < s.moves.length := by omega
      have hsucc : s.currentStep - 1 + 1 = s.currentStep := by omega
      refine ⟨fun m hm => h.1 m hm,
        Or.inr (Or.inr (Or.inr ⟨?_, hplay',
          by show s.currentStep - 1 ≤ s.moves.length; omega, ?_⟩))⟩
      · show s.pending ++ [AwaitCont.stepBwdCont] = _
        rw [hq]
        rfl
      · show CubeModel.applyMove s.grid
            ((s.moves.getD (s.currentStep - 1) default).inverse)
          = gridAt _ (s.currentStep - 1)
        have hmem : s.moves.getD (s.currentStep - 1) default ∈ s.moves :=
          getD_mem_of_lt s.moves _ hjlt
        have hg : s.grid
            = CubeModel.applyMove (gridAt s (s.currentStep - 1))
                (s.moves.getD (s.currentStep - 1) default) := by
          rw [gridAt_succ s (s.currentStep - 1) hjlt, hsucc]
          exact hgrid
        rw [hg, CubeModel.applyMove_inverse_cancel _ _ (h.1 _ hmem)]
        exact (gridAt_congr s _ rfl rfl _).symm

/-- The loop-top test preserves the invariant from any state whose grid is
at the cursor target with nothing pending. -/
theorem inv_playLoopEntry (s : CtrlState) (hwf : movesWf s)
    (hq : s.pending = []) (hle : s.currentStep ≤ s.moves.length)
    (hgrid : s.grid = gridAt s s.currentStep) :
    InvFull (playLoopEntry s) := by
  unfold playLoopEntry
  split
  · rename_i hcond
    refine ⟨fun m hm => hwf m hm, Or.inr (Or.inl ⟨?_, hcond.1, ?_⟩)⟩
    · show s.pending ++ [AwaitCont.playCont] = _
      rw [hq]
      rfl
    · show CubeModel.applyMove s.grid (s.moves.getD s.currentStep default)
        = gridAt _ (s.currentStep + 1)
      rw [hgrid, gridAt_succ s s.currentStep hcond.1]
      exact (gridAt_congr s _ rfl rfl _).symm
  · exact ⟨fun m hm => hwf m hm, Or.inl ⟨hq, rfl, hle, hgrid⟩⟩

/-- The invariant is preserved by `play` from a quiescent state. -/
theorem inv_play (s : CtrlState) (h : InvFull s) (hq : s.pending = []) :
    InvFull (playFn s) := by
  obtain ⟨hplay0, hle0, hgrid0⟩ := inv_quiescent s h hq
  unfold playFn
  split
  · exact h
  · split
    · -- the cursor is at or past the end: the code resets first
      rw [resetFn_eq]
      refine inv_playLoopEntry _ (fun m hm => h.1 m hm) ?_ (Nat.zero_le _) ?_
      · show s.pending.take 1 = _
        rw [hq]
        rfl
      · show solvedPlusSetup s.setupMoves = gridAt _ 0
        rfl
    · -- the cursor is strictly before the end
      refine inv_playLoopEntry _ (fun m hm => h.1 m hm) hq hle0 ?_
      show s.grid = gridAt _ s.currentStep
      rw [hgrid0]
      exact (gridAt_congr s _ rfl rfl _).symm

/-- The invariant is preserved by `togglePlay` when it is playing or
quiescent. -/
theorem inv_togglePlay (s : CtrlState) (h : InvFull s)
    (hok : s.isPlaying = true ∨ s.pending = []) :
    InvFull (togglePlayFn s) := by
  unfold togglePlayFn
  split
  · exact inv_pause s h
  · rename_i hnp
    rcases hok with hok | hok
    · exact absurd hok hnp
    · exact inv_play s h hok

/-- The invariant is preserved by an animation completing. -/
theorem inv_drain (s : CtrlState) (h : InvFull s) :
    InvFull (applyEv s Ev.drain) := by
  obtain ⟨hwf, hcase⟩ := h
  rcases hcase with ⟨h1, h2, h3, h4⟩ | ⟨h1, h2, h3⟩ | ⟨h1, h2, h3, h4⟩
    | ⟨h1, h2, h3, h4⟩
  · rw [applyEv_drain_nil s h1]
    exact ⟨hwf, Or.inl ⟨h1, h2, h3, h4⟩⟩
  · rw [applyEv_drain_cons s AwaitCont.playCont [] h1]
    show InvFull (playLoopEntry _)
    refine inv_playLoopEntry _ (fun m hm => hwf m hm) rfl
      (by show s.currentStep + 1 ≤ s.moves.length; omega) ?_
    show s.grid = gridAt _ (s.currentStep + 1)
    rw [h3]
    exact (gridAt_congr s _ rfl rfl _).symm
  · rw [applyEv_drain_cons s AwaitCont.stepFwdCont [] h1]
    refine ⟨fun m hm => hwf m hm,
      Or.inl ⟨rfl, h2,
        by show s.currentStep + 1 ≤ s.moves.length; omega, ?_⟩⟩
    show s.grid = gridAt _ (s.currentStep + 1)
    rw [h4]
    exact (gridAt_congr s _ rfl rfl _).symm
  · rw [applyEv_drain_cons s AwaitCont.stepBwdCont [] h1]
    refine ⟨fun m hm => hwf m hm, Or.inl ⟨rfl, h2, h3, ?_⟩⟩
    show s.grid = gridAt _ s.currentStep
    rw [h4]
    exact (gridAt_congr s _ rfl rfl _).symm

/-- The invariant is preserved by every event that satisfies its side
condition. -/
theorem invFull_applyEv (s : CtrlState) (e : Ev) (h : InvFull s)
    (hok : okEv s e) : InvFull (applyEv s e) := by
  cases e with
  | load a t => exact inv_load s a t hok
  | play => exact inv_play s h hok
  | pause => exact inv_pause s h
  | togglePlay => exact inv_togglePlay s h hok
  | stepForward => exact inv_stepForward s h
  | stepBackward => exact inv_stepBackward s h
  | reset => exact inv_reset s hok h.1
  | drain => exact inv_drain s h

/-- The invariant is preserved along any trace satisfying the side
conditions. -/
theorem invFull_runEvents :
    ∀ (evs : List Ev) (s : CtrlState), InvFull s → OkTrace s evs →
      InvFull (runEvents s evs)
  | [], _, h, _ => h
  | e :: evs, s, h, hok =>
    invFull_runEvents evs (applyEv s e)
      (invFull_applyEv s e h hok.1) hok.2

end CubeController

open CubeController in
/-- C1 (amended): For every loaded algorithm with setup moves, after every
public Playback Controller operation has returned and any pending animation
(with its suspended continuation) has drained, the CubeModel facelet grid
equals the grid obtained by starting from solved, applying the setup moves,
then applying the first `currentStep` algorithm moves in order — provided
that `loadAlgorithm`, `reset` and `play` are invoked only when no animation
or suspended continuation is pending, and `togglePlay` only while playing
or likewise at quiescence (`pause`, `stepForward`, `stepBackward` and
animation completions may occur at any time).  In particular this holds at
the moment `pause()` returns once the pending animation has drained. -/
theorem C1_playback_cursor_invariant (algorithm setupText : List Char)
    (evs : List Ev)
    (hok : OkTrace (applyEv initState (Ev.load algorithm setupText)) evs)
    (hq : (runEvents (applyEv initState (Ev.load algorithm setupText))
        evs).pending = []) :
    (runEvents (applyEv initState (Ev.load algorithm setupText)) evs).grid
      = gridTarget
          (runEvents (applyEv initState (Ev.load algorithm setupText)) evs) := by
  have h0 : InvFull (applyEv initState (Ev.load algorithm setupText)) :=
    inv_load initState algorithm setupText rfl
  exact (inv_quiescent _ (invFull_runEvents evs _ h0 hok) hq).2.2

open CubeController in
theorem C1_playback_cursor_invariant_witness :
    (runEvents (applyEv initState (Ev.load sampleAlgText sampleSetupText))
        [Ev.play, Ev.drain, Ev.pause, Ev.drain]).grid
      = gridTarget
          (runEvents (applyEv initState (Ev.load sampleAlgText sampleSetupText))
            [Ev.play, Ev.drain, Ev.pause, Ev.drain]) :=
  C1_playback_cursor_invariant sampleAlgText sampleSetupText
    [Ev.play, Ev.drain, Ev.pause, Ev.drain] (by decide) (by decide)

open CubeController in
/-- C1 counterexample: without the quiescence restriction the claim is
false on the code.  Load `"R U"` with setup `"F"`, call `play()` (it applies
move `R` and awaits its animation), call `loadAlgorithm("R U", "F")` again
while that animation is in flight (the cube is reset to solved-plus-setup),
and let the animation drain: the suspended play loop resumes, increments
`currentStep` to 1 and exits.  All operations have returned and nothing is
pending, yet the grid shows zero algorithm moves while `currentStep = 1`. -/
theorem C1_counterexample :
    (runEvents initState
        [Ev.load sampleAlgText sampleSetupText, Ev.play,
          Ev.load sampleAlgText sampleSetupText, Ev.drain]).pending = []
      ∧ (runEvents initState
          [Ev.load sampleAlgText sampleSetupText, Ev.play,
            Ev.load sampleAlgText sampleSetupText, Ev.drain]).currentStep = 1
      ∧ ¬((runEvents initState
          [Ev.load sampleAlgText sampleSetupText, Ev.play,
            Ev.load sampleAlgText sampleSetupText, Ev.drain]).grid
        = gridTarget (runEvents initState
            [Ev.load sampleAlgText sampleSetupText, Ev.play,
              Ev.load sampleAlgText sampleSetupText, Ev.drain])) := by
  decide

open CubeController in
/-- C5: From the Idle, not-animating controller state with cursor k where
0 <= k < algorithm length (and parser-produced moves), calling
stepForward() and awaiting it, then calling stepBackward() and awaiting it,
restores the exact facelet grid that held before the two calls and leaves
currentStep equal to k. -/
theorem C5_step_forward_then_backward (s : CtrlState) (hq : s.pending = [])
    (hp : s.isPlaying = false) (hwf : movesWf s)
    (hk : s.currentStep < s.moves.length) :
    (runEvents s [Ev.stepForward, Ev.drain, Ev.stepBackward, Ev.drain]).grid
        = s.grid
      ∧ (runEvents s
          [Ev.stepForward, Ev.drain, Ev.stepBackward, Ev.drain]).currentStep
        = s.currentStep := by
  have hmv : s.moves.getD s.currentStep default ∈ s.moves :=
    getD_mem_of_lt _ _ hk
  have e1 : applyEv s Ev.stepForward
      = { s with
          grid := CubeModel.applyMove s.grid
            (s.moves.getD s.currentStep default),
          pending := [AwaitCont.stepFwdCont] } := by
    show stepForwardFn s = _
    unfold stepForwardFn
    rw [if_neg (by simp [hp, hq]), if_neg (by omega)]
    unfold executeStep
    rw [hq]
    rfl
  have e2 : applyEv (applyEv s Ev.stepForward) Ev.drain
      = { s with
          grid := CubeModel.applyMove s.grid
            (s.moves.getD s.currentStep default),
          pending := [], currentStep := s.currentStep + 1,
          log := s.log
            ++ [Notif.step (s.currentStep + 1) s.moves.length] } := by
    rw [e1, applyEv_drain_cons _ AwaitCont.stepFwdCont [] rfl]
    rfl
  have e3 : applyEv (applyEv (applyEv s Ev.stepForward) Ev.drain)
        Ev.stepBackward
      = { s with
          grid := CubeModel.applyMove
            (CubeModel.applyMove s.grid (s.moves.getD s.currentStep default))
            (s.moves.getD s.currentStep default).inverse,
          pending := [AwaitCont.stepBwdCont],
          log := s.log
            ++ [Notif.step (s.currentStep + 1) s.moves.length] } := by
    rw [e2]
    show stepBackwardFn _ = _
    unfold stepBackwardFn
    rw [if_neg (by simp [hp]),
      if_neg (by show ¬(s.currentStep + 1 ≤ 0); omega)]
    rfl
  have e4 : applyEv (applyEv (applyEv (applyEv s Ev.stepForward) Ev.drain)
        Ev.stepBackward) Ev.drain
      = { s with
          grid := CubeModel.applyMove
            (CubeModel.applyMove s.grid (s.moves.getD s.currentStep default))
            (s.moves.getD s.currentStep default).inverse,
          pending := [],
          log := s.log
            ++ [Notif.step (s.currentStep + 1) s.moves.length]
            ++ [Notif.step s.currentStep s.moves.length] } := by
    rw [e3, applyEv_drain_cons _ AwaitCont.stepBwdCont [] rfl]
    rfl
  have hrun : runEvents s [Ev.stepForward, Ev.drain, Ev.stepBackward, Ev.drain]
      = applyEv (applyEv (applyEv (applyEv s Ev.stepForward) Ev.drain)
          Ev.stepBackward) Ev.drain := rfl
  rw [hrun, e4]
  exact ⟨CubeModel.applyMove_inverse_cancel s.grid _ (hwf _ hmv), rfl⟩

open CubeController in
theorem C5_step_forward_then_backward_witness :
    (runEvents (applyEv initState (Ev.load sampleAlgText []))
        [Ev.stepForward, Ev.drain, Ev.stepBackward, Ev.drain]).grid
        = (applyEv initState (Ev.load sampleAlgText [])).grid
      ∧ (runEvents (applyEv initState (Ev.load sampleAlgText []))
          [Ev.stepForward, Ev.drain, Ev.stepBackward, Ev.drain]).currentStep
        = (applyEv initState (Ev.load sampleAlgText [])).currentStep :=
  C5_step_forward_then_backward (applyEv initState (Ev.load sampleAlgText []))
    (by decide) (by decide) (fun m hm => MoveParser.parse_wf _ m hm)
    (by decide)

namespace CubeController

/-- Number of step notifications in a log segment. -/
def countSteps (l : List Notif) : Nat :=
  (l.filter fun n => match n with
    | Notif.step _ _ => true
    | _ => false).length

/-- Number of play-state notifications with `isPlaying = false` in a log
segment. -/
def countPlayFalse (l : List Notif) : Nat :=
  (l.filter fun n => match n with
    | Notif.playState false => true
    | _ => false).length

/-- Running the play loop to completion: from a state suspended in the loop
with `d ≥ 1` moves left, `d` animation completions drive the cursor to the
end, append exactly the remaining step notifications and one final
play-state-false notification, and leave nothing pending. -/
theorem play_drains :
    ∀ (d : Nat) (s : CtrlState) (k : Nat),
      s.pending = [AwaitCont.playCont] →
      s.playAbort = false →
      s.currentStep = k →
      s.moves.length = k + d →
      1 ≤ d →
      (runEvents s (List.replicate d Ev.drain)).currentStep = k + d
        ∧ (runEvents s (List.replicate d Ev.drain)).pending = []
        ∧ (runEvents s (List.replicate d Ev.drain)).log
            = s.log
              ++ ((List.range d).map fun i => Notif.step (k + 1 + i) (k + d))
              ++ [Notif.playState false]
  | 0, _, _, _, _, _, _, hd => absurd hd (by decide)
  | 1, s, k, hpend, habort, hstep, hlen, _ => by
    have hrun : runEvents s (List.replicate 1 Ev.drain) = applyEv s Ev.drain :=
      rfl
    rw [hrun, applyEv_drain_cons s AwaitCont.playCont [] hpend]
    unfold resumeCont playLoopEntry
    rw [if_neg (by
      show ¬(s.currentStep + 1 < s.moves.length ∧ s.playAbort = false)
      rw [hstep, hlen]
      intro hc
      omega)]
    refine ⟨?_, rfl, ?_⟩
    · show s.currentStep + 1 = k + 1
      rw [hstep]
    · show s.log ++ [Notif.step (s.currentStep + 1) s.moves.length]
          ++ [Notif.playState false]
        = s.log
          ++ ((List.range 1).map fun i => Notif.step (k + 1 + i) (k + 1))
          ++ [Notif.playState false]
      rw [hstep, hlen]
      rfl
  | d + 2, s, k, hpend, habort, hstep, hlen, _ => by
    have hrun : runEvents s (List.replicate (d + 2) Ev.drain)
        = runEvents (applyEv s Ev.drain) (List.replicate (d + 1) Ev.drain) :=
      rfl
    rw [hrun, applyEv_drain_cons s AwaitCont.playCont [] hpend]
    unfold resumeCont playLoopEntry
    rw [if_pos (by
      constructor
      · show s.currentStep + 1 < s.moves.length
        omega
      · show s.playAbort = false
        exact habort)]
    have ih := play_drains (d + 1)
      (executeStep
        (notifyStep
          { s with
            pending := ([] : List AwaitCont),
            currentStep := s.currentStep + 1 })
        AwaitCont.playCont)
      (k + 1) rfl habort (by show s.currentStep + 1 = k + 1; rw [hstep])
      (by show s.moves.length = k + 1 + (d + 1); omega) (by omega)
    obtain ⟨ih1, ih2, ih3⟩ := ih
    refine ⟨?_, ih2, ?_⟩
    · show (runEvents
          (executeStep
            (notifyStep
              { s with
                pending := ([] : List AwaitCont),
                currentStep := s.currentStep + 1 })
            AwaitCont.playCont)
          (List.replicate (d + 1) Ev.drain)).currentStep = k + (d + 2)
      rw [ih1]
      omega
    · show (runEvents
          (executeStep
            (notifyStep
              { s with
                pending := ([] : List AwaitCont),
                currentStep := s.currentStep + 1 })
            AwaitCont.playCont)
          (List.replicate (d + 1) Ev.drain)).log
        = s.log
          ++ ((List.range (d + 2)).map fun i =>
            Notif.step (k + 1 + i) (k + (d + 2)))
          ++ [Notif.playState false]
      rw [ih3]
      show s.log ++ [Notif.step (s.currentStep + 1) s.moves.length]
          ++ ((List.range (d + 1)).map fun i =>
            Notif.step (k + 1 + 1 + i) (k + 1 + (d + 1)))
          ++ [Notif.playState false]
        = s.log
          ++ ((List.range (d + 2)).map fun i =>
            Notif.step (k + 1 + i) (k + (d + 2)))
          ++ [Notif.playState false]
      rw [hstep, hlen]
      conv_rhs => rw [List.range_succ_eq_map, List.map_cons, List.map_map]
      have hmapeq : (List.range (d + 1)).map
            ((fun i => Notif.step (k + 1 + i) (k + (d + 2))) ∘ Nat.succ)
          = (List.range (d + 1)).map
            (fun i => Notif.step (k + 1 + 1 + i) (k + 1 + (d + 1))) := by
        refine List.map_congr_left fun i _ => ?_
        show Notif.step (k + 1 + (i + 1)) (k + (d + 2))
          = Notif.step (k + 1 + 1 + i) (k + 1 + (d + 1))
        congr 1 <;> omega
      rw [hmapeq]
      simp [List.append_assoc]

end CubeController

namespace CubeController

theorem countSteps_append (l1 l2 : List Notif) :
    countSteps (l1 ++ l2) = countSteps l1 + countSteps l2 := by
  unfold countSteps
  rw [List.filter_append, List.length_append]

theorem countPlayFalse_append (l1 l2 : List Notif) :
    countPlayFalse (l1 ++ l2) = countPlayFalse l1 + countPlayFalse l2 := by
  unfold countPlayFalse
  rw [List.filter_append, List.length_append]

theorem countSteps_stepMap (f : Nat → Nat) (N : Nat) (l : List Nat) :
    countSteps (l.map fun i => Notif.step (f i) N) = l.length := by
  unfold countSteps
  rw [List.filter_eq_self.mpr ?_, List.length_map]
  intro a ha
  obtain ⟨i, _, rfl⟩ := List.mem_map.mp ha
  rfl

theorem countPlayFalse_stepMap (f : Nat → Nat) (N : Nat) (l : List Nat) :
    countPlayFalse (l.map fun i => Notif.step (f i) N) = 0 := by
  unfold countPlayFalse
  rw [List.length_eq_zero]
  rw [List.filter_eq_nil_iff]
  intro a ha
  obtain ⟨i, _, rfl⟩ := List.mem_map.mp ha
  simp

end CubeController

open CubeController in
/-- C4 (amended): If an algorithm of length N ≥ 1 is loaded and the cursor
is 0, then a call to play() that runs to completion without interference
(N animation completions, no other events) leaves currentStep equal to N,
and exactly N step notifications plus exactly one play-state notification
with isPlaying=false have fired since play started. -/
theorem C4_play_to_completion (s : CtrlState) (hq : s.pending = [])
    (hp : s.isPlaying = false) (h0 : s.currentStep = 0)
    (hN : 1 ≤ s.moves.length) :
    (runEvents s
        (Ev.play :: List.replicate s.moves.length Ev.drain)).currentStep
        = s.moves.length
      ∧ countSteps ((runEvents s
          (Ev.play :: List.replicate s.moves.length Ev.drain)).log.drop
            s.log.length) = s.moves.length
      ∧ countPlayFalse ((runEvents s
          (Ev.play :: List.replicate s.moves.length Ev.drain)).log.drop
            s.log.length) = 1 := by
  have hplayfn : playFn s
      = executeStep
          (notifyPlayState { s with isPlaying := true, playAbort := false })
          AwaitCont.playCont := by
    unfold playFn
    rw [if_neg (by simp [hp]), if_neg (by omega)]
    unfold playLoopEntry
    rw [if_pos ⟨by show s.currentStep < s.moves.length; omega, rfl⟩]
  have hrun : runEvents s (Ev.play :: List.replicate s.moves.length Ev.drain)
      = runEvents (playFn s) (List.replicate s.moves.length Ev.drain) := rfl
  obtain ⟨f1, f2, f3⟩ := play_drains s.moves.length
    (executeStep
      (notifyPlayState { s with isPlaying := true, playAbort := false })
      AwaitCont.playCont)
    0
    (by show s.pending ++ [AwaitCont.playCont] = _; rw [hq]; rfl)
    rfl
    (by show s.currentStep = 0; exact h0)
    (by show s.moves.length = 0 + s.moves.length; omega)
    hN
  rw [hrun, hplayfn]
  refine ⟨by rw [f1]; omega, ?_, ?_⟩
  · rw [f3]
    show countSteps (((s.log ++ [Notif.playState true])
        ++ ((List.range s.moves.length).map fun i =>
          Notif.step (0 + 1 + i) (0 + s.moves.length))
        ++ [Notif.playState false]).drop s.log.length) = s.moves.length
    rw [List.append_assoc, List.append_assoc, List.drop_left,
      countSteps_append, countSteps_append, countSteps_stepMap,
      List.length_range]
    show 0 + (s.moves.length + 0) = s.moves.length
    omega
  · rw [f3]
    show countPlayFalse (((s.log ++ [Notif.playState true])
        ++ ((List.range s.moves.length).map fun i =>
          Notif.step (0 + 1 + i) (0 + s.moves.length))
        ++ [Notif.playState false]).drop s.log.length) = 1
    rw [List.append_assoc, List.append_assoc, List.drop_left,
      countPlayFalse_append, countPlayFalse_append, countPlayFalse_stepMap]
    rfl

open CubeController in
/-- C4 counterexample: for an algorithm of length N = 0 the claim fails.
`play()` from cursor 0 first triggers the reset branch
(`currentStep >= moves.length` holds at 0 ≥ 0), and `reset()` fires one
step notification and one play-state-false notification (from its internal
`pause()`); the loop then exits, firing a second play-state-false
notification.  So 1 step notification (≠ N = 0) and 2 play-state-false
notifications (≠ 1) fire since play started. -/
theorem C4_counterexample :
    ¬(countSteps (((runEvents (applyEv initState (Ev.load [] []))
            [Ev.play]).log).drop
          (applyEv initState (Ev.load [] [])).log.length) = 0
      ∧ countPlayFalse (((runEvents (applyEv initState (Ev.load [] []))
            [Ev.play]).log).drop
          (applyEv initState (Ev.load [] [])).log.length) = 1) := by
  decide

open CubeController in
theorem C4_play_to_completion_witness :
    (runEvents (applyEv initState (Ev.load sampleAlgText []))
        (Ev.play :: List.replicate
          (applyEv initState (Ev.load sampleAlgText [])).moves.length
          Ev.drain)).currentStep
        = (applyEv initState (Ev.load sampleAlgText [])).moves.length
      ∧ countSteps ((runEvents (applyEv initState (Ev.load sampleAlgText []))
          (Ev.play :: List.replicate
            (applyEv initState (Ev.load sampleAlgText [])).moves.length
            Ev.drain)).log.drop
          (applyEv initState (Ev.load sampleAlgText [])).log.length)
        = (applyEv initState (Ev.load sampleAlgText [])).moves.length
      ∧ countPlayFalse ((runEvents (applyEv initState (Ev.load sampleAlgText []))
          (Ev.play :: List.replicate
            (applyEv initState (Ev.load sampleAlgText [])).moves.length
            Ev.drain)).log.drop
          (applyEv initState (Ev.load sampleAlgText [])).log.length) = 1 :=
  C4_play_to_completion (applyEv initState (Ev.load sampleAlgText []))
    (by decide) (by decide) (by decide) (by decide)

/-! ### The animator's frame timing (`CubeAnimator.js`)

`_startAnimation`'s per-frame callback computes
`t = Math.min(elapsed / this.duration, 1)` — it reads `this.duration` live
on every frame, it does not snapshot it when the animation starts.  Time
stamps and durations are modelled as rationals. -/

/-- The animator's mutable timing state: `this.duration` (ms per move). -/
structure CubeAnimator where
  duration : ℚ

/-- `CubeAnimator.setSpeed`: `this.duration = 300 / speed`. -/
def CubeAnimator.setSpeed (a : CubeAnimator) (speed : ℚ) : CubeAnimator :=
  { a with duration := 300 / speed }

/-- The interpolation parameter of the frame at time `now` for an animation
started at `t0`: `Math.min(elapsed / this.duration, 1)`. -/
def CubeAnimator.frameParam (a : CubeAnimator) (t0 now : ℚ) : ℚ :=
  min ((now - t0) / a.duration) 1

/-- A frame completes the in-flight animation when its parameter reaches 1
(the `t < 1` test fails and the animation resolves). -/
def CubeAnimator.frameCompletes (a : CubeAnimator) (t0 now : ℚ) : Prop :=
  1 ≤ (now - t0) / a.duration

/-- C7 counterexample: `setSpeed` during an in-flight animation does change
that animation's progression.  An animation started at time 0 with the
default duration 300: after `setSpeed(10)` (duration 30) the frame at
t = 40 ms computes parameter 1 (completion), whereas without the call it
computes 2/15. -/
theorem C7_counterexample :
    ¬(CubeAnimator.frameParam (CubeAnimator.setSpeed ⟨300⟩ 10) 0 40
      = CubeAnimator.frameParam ⟨300⟩ 0 40) := by
  unfold CubeAnimator.setSpeed CubeAnimator.frameParam
  norm_num

/-- C7 (amended): `setSpeed(m)` sets the per-move duration to 300/m
immediately, and this applies to every subsequent frame, including the
frames of an animation already in progress: after the call, a frame at time
`now` of an animation started at `t0` completes exactly when
`300/m ≤ now - t0`, regardless of the duration in force when the animation
started.  Moves started after the call use the same new duration. -/
theorem C7_setSpeed_is_retroactive (a : CubeAnimator) (m t0 now : ℚ)
    (hm : 0 < m) :
    (CubeAnimator.setSpeed a m).duration = 300 / m
      ∧ (CubeAnimator.frameCompletes (CubeAnimator.setSpeed a m) t0 now
          ↔ 300 / m ≤ now - t0)
      ∧ CubeAnimator.frameParam (CubeAnimator.setSpeed a m) t0 now
          = min ((now - t0) / (300 / m)) 1 := by
  have hd : (0 : ℚ) < 300 / m := by positivity
  refine ⟨rfl, ?_, rfl⟩
  unfold CubeAnimator.frameCompletes CubeAnimator.setSpeed
  show 1 ≤ (now - t0) / (300 / m) ↔ 300 / m ≤ now - t0
  rw [le_div_iff₀ hd, one_mul]

theorem C7_setSpeed_is_retroactive_witness :
    ((0 : ℚ) < 10)
      ∧ ((CubeAnimator.setSpeed ⟨300⟩ 10).duration = 300 / 10
        ∧ (CubeAnimator.frameCompletes (CubeAnimator.setSpeed ⟨300⟩ 10) 0 40
            ↔ (300 : ℚ) / 10 ≤ 40 - 0)
        ∧ CubeAnimator.frameParam (CubeAnimator.setSpeed ⟨300⟩ 10) 0 40
            = min (((40 : ℚ) - 0) / (300 / 10)) 1) :=
  ⟨by norm_num, C7_setSpeed_is_retroactive ⟨300⟩ 10 0 40 (by norm_num)⟩

/-! ### Progress persistence (`ProgressTracker.js`)

`_getAll` reads the whole blob under one storage key:
`JSON.parse(localStorage.getItem(KEY)) || {}` inside `try/catch`.  The
storage read and `JSON.parse` belong to the browser runtime, so the blob is
abstracted by its three relevant outcomes: the key is absent
(`getItem` returns `null`, `JSON.parse(null)` parses the string "null" to
`null`, and `null || {}` yields `{}`), the stored text is not valid JSON
(`JSON.parse` throws and the `catch` yields `{}`), or a stored object whose
truthy-membership test `data[id]` is a boolean-valued map. -/

inductive StoredBlob
  | absent
  | corrupted
  | stored (data : String → Bool)

namespace ProgressTracker

/-- `ProgressTracker._getAll`, as the membership map it yields. -/
def getAll : StoredBlob → (String → Bool)
  | .absent => fun _ => false
  | .corrupted => fun _ => false
  | .stored data => data

/-- `ProgressTracker.isCompleted(id)`: `!!this._getAll()[id]`. -/
def isCompleted (blob : StoredBlob) (id : String) : Bool :=
  getAll blob id

/-- `ProgressTracker.countCompleted(ids)`:
`ids.filter(id => data[id]).length`. -/
def countCompleted (blob : StoredBlob) (ids : List String) : Nat :=
  (ids.filter fun id => getAll blob id).length

/-- `ProgressTracker.getProgress(ids)`: `0` for an empty list, otherwise
`countCompleted(ids) / ids.length` (as an exact rational). -/
def getProgress (blob : StoredBlob) (ids : List String) : ℚ :=
  if ids.length = 0 then 0
  else (countCompleted blob ids : ℚ) / (ids.length : ℚ)

end ProgressTracker

/-- C9: If the persisted progress blob is absent or is not valid JSON,
every ProgressTracker read operation (isCompleted, countCompleted,
getProgress) behaves as if no algorithm is completed (returns false, 0, or
0 respectively); all the read operations are total, so no error propagates
to the caller. -/
theorem C9_missing_or_corrupt_blob_reads_empty (blob : StoredBlob)
    (hblob : blob = StoredBlob.absent ∨ blob = StoredBlob.corrupted)
    (id : String) (ids : List String) :
    ProgressTracker.isCompleted blob id = false
      ∧ ProgressTracker.countCompleted blob ids = 0
      ∧ ProgressTracker.getProgress blob ids = 0 := by
  have hget : ProgressTracker.getAll blob = fun _ => false := by
    rcases hblob with h | h <;> rw [h] <;> rfl
  have hcount : ProgressTracker.countCompleted blob ids = 0 := by
    unfold ProgressTracker.countCompleted
    rw [hget]
    simp
  refine ⟨?_, hcount, ?_⟩
  · unfold ProgressTracker.isCompleted
    rw [hget]
  · unfold ProgressTracker.getProgress
    split
    · rfl
    · rw [hcount]
      norm_num

def sampleIdA : String := "oll-1"

def sampleIdB : String := "oll-2"

theorem C9_missing_or_corrupt_blob_reads_empty_witness :
    ProgressTracker.isCompleted StoredBlob.absent sampleIdA = false
      ∧ ProgressTracker.countCompleted StoredBlob.absent
          [sampleIdA, sampleIdB] = 0
      ∧ ProgressTracker.getProgress StoredBlob.absent
          [sampleIdA, sampleIdB] = 0 :=
  C9_missing_or_corrupt_blob_reads_empty StoredBlob.absent (Or.inl rfl)
    sampleIdA [sampleIdA, sampleIdB]

/-- C10: `ProgressTracker.getProgress(ids)` returns exactly 0 when ids is
the empty list, rather than performing a division by zero; for every
non-empty ids it returns countCompleted(ids) divided by ids.length, a value
between 0 and 1. -/
theorem C10_getProgress_guards_empty_list (blob : StoredBlob)
    (ids : List String) :
    (ids = [] → ProgressTracker.getProgress blob ids = 0)
      ∧ (ids ≠ [] →
        ProgressTracker.getProgress blob ids
            = (ProgressTracker.countCompleted blob ids : ℚ) / (ids.length : ℚ)
          ∧ 0 ≤ ProgressTracker.getProgress blob ids
          ∧ ProgressTracker.getProgress blob ids ≤ 1) := by
  constructor
  · intro h
    rw [h]
    rfl
  · intro h
    have hlen : ids.length ≠ 0 := fun hc => h (List.length_eq_zero.mp hc)
    have hlen' : (0 : ℚ) < ids.length := by
      have := Nat.pos_of_ne_zero hlen
      exact_mod_cast this
    have hval : ProgressTracker.getProgress blob ids
        = (ProgressTracker.countCompleted blob ids : ℚ) / (ids.length : ℚ) := by
      unfold ProgressTracker.getProgress
      rw [if_neg hlen]
    refine ⟨hval, ?_, ?_⟩
    · rw [hval]
      positivity
    · rw [hval]
      rw [div_le_one hlen']
      have hle : ProgressTracker.countCompleted blob ids ≤ ids.length :=
        List.length_filter_le _ _
      exact_mod_cast hle

theorem C10_getProgress_guards_empty_list_witness :
    ((([] : List String) = [] →
        ProgressTracker.getProgress StoredBlob.absent [] = 0)
      ∧ (([] : List String) ≠ [] →
        ProgressTracker.getProgress StoredBlob.absent []
            = (ProgressTracker.countCompleted StoredBlob.absent [] : ℚ)
              / (([] : List String).length : ℚ)
          ∧ 0 ≤ ProgressTracker.getProgress StoredBlob.absent []
          ∧ ProgressTracker.getProgress StoredBlob.absent [] ≤ 1))
      ∧ (([sampleIdA] : List String) = [] →
        ProgressTracker.getProgress (StoredBlob.stored fun _ => true) [sampleIdA]
          = 0)
      ∧ (([sampleIdA] : List String) ≠ [] →
        ProgressTracker.getProgress (StoredBlob.stored fun _ => true) [sampleIdA]
            = (ProgressTracker.countCompleted
                (StoredBlob.stored fun _ => true) [sampleIdA] : ℚ)
              / (([sampleIdA] : List String).length : ℚ)
          ∧ 0 ≤ ProgressTracker.getProgress
              (StoredBlob.stored fun _ => true) [sampleIdA]
          ∧ ProgressTracker.getProgress
              (StoredBlob.stored fun _ => true) [sampleIdA] ≤ 1) :=
  ⟨C10_getProgress_guards_empty_list StoredBlob.absent [],
    (C10_getProgress_guards_empty_list (StoredBlob.stored fun _ => true)
      [sampleIdA]).1,
    (C10_getProgress_guards_empty_list (StoredBlob.stored fun _ => true)
      [sampleIdA]).2⟩
